import Mathlib

/-!
Verification development for the river-runner network-tracing engine
(`pygeoapi/process/river_runner.py`).

The Python code is shallowly embedded: GeoJSON features become Lean
structures, Python dict/list operations become explicit recursive
functions, and operations that can raise an unhandled exception
(`KeyError`, `IndexError`) return `Option`, with `none` standing for the
raised exception.  All numeric attribute values (`levelpathi`,
`hydroseq`, `dnlevelpat`, `dnhydroseq`) are embedded as `Int`; bounding
box coordinates are embedded as `Rat` (exact rational arithmetic in
place of Python floats).
-/

namespace RiverRunner

/-- A network segment as used by `_from_fid` / `_from_bbox` / `_levelpaths`:
the required attributes of `feature['properties']` (`levelpathi`,
`hydroseq`, `dnlevelpat`, `dnhydroseq`) plus `fid` standing for the rest of
the feature (identity / payload).  `chain` embeds the already-tokenised
`down_levelpaths` comma-separated string: each entry is `some n` for a
token `i` with `int(float(i)) = n`, and `none` for a token whose parse
raises `ValueError` (skipped and logged by `_levelpaths`). -/
structure Seg where
  fid : Nat
  levelpathi : Int
  hydroseq : Int
  dnlevelpat : Int
  dnhydroseq : Int
  chain : List (Option Int)
deriving DecidableEq, Repr

/-- `_levelpaths(mh)`: the seed's own `levelpathi` followed by the parsed
entries of `down_levelpaths`, unparseable entries skipped (the seed's own
`levelpathi` is numeric and always parses). -/
def levelpaths (s : Seg) : List Int :=
  s.levelpathi :: s.chain.filterMap id

/-- First-occurrence deduplication with an accumulator of already seen
keys; embeds the deduplication performed by the Python dict comprehension
`mins = {level: {} for level in levelpaths}` (dict keys are unique and
keep first-insertion order). -/
def pyDedupAux (seen : List Int) : List Int → List Int
  | [] => []
  | x :: xs =>
    if x ∈ seen then pyDedupAux seen xs
    else x :: pyDedupAux (x :: seen) xs

/-- Deduplicate keeping the first occurrence of each key. -/
def pyDedup (xs : List Int) : List Int :=
  pyDedupAux [] xs

/-- Association-list lookup for the `mins` dict (keys are `levelpathi`
values, entries are `none` for the initial empty dict `{}` and `some f`
once a feature has been stored). -/
def alookup (k : Int) : List (Int × Option Seg) → Option (Option Seg)
  | [] => none
  | e :: rest => if e.1 = k then some e.2 else alookup k rest

/-- One update of a `mins` entry:
`prev = mins[key].get(P, {}).get('hydroseq', None)` followed by
`if prev is None or min(prev, f[P]['hydroseq']) != prev: mins[key] = f`.
`min(prev, h) != prev` holds exactly when `h < prev`; on ties the earlier
feature is kept. -/
def updateEntry (v : Option Seg) (f : Seg) : Option Seg :=
  match v with
  | none => some f
  | some prev => if f.hydroseq < prev.hydroseq then some f else some prev

/-- One iteration of the `finding mins` loop of `_from_fid` for feature
`f`: reading `mins[key]` raises `KeyError` (= `none`) when `key` is not a
key of the dict; otherwise the entry for `key` is updated in place. -/
def updateMins (m : List (Int × Option Seg)) (f : Seg) :
    Option (List (Int × Option Seg)) :=
  if (alookup f.levelpathi m).isSome then
    some (m.map fun e =>
      if e.1 = f.levelpathi then (e.1, updateEntry e.2 f) else e)
  else none

/-- The full `finding mins` loop of `_from_fid` over the bulk query
result `d['features']`. -/
def minsFold (m : List (Int × Option Seg)) : List Seg →
    Option (List (Int × Option Seg))
  | [] => some m
  | f :: fs =>
    match updateMins m f with
    | none => none
    | some m' => minsFold m' fs

/-- The `for v in mins.values(): trim.append((v[P]['dnlevelpat'],
v[P]['dnhydroseq']))` loop: an entry still holding the initial empty dict
`{}` raises `KeyError` (= `none`) when its properties are read. -/
def minsValues : List (Int × Option Seg) → Option (List (Int × Int))
  | [] => some []
  | (_, none) :: _ => none
  | (_, some s) :: rest =>
    match minsValues rest with
    | none => none
    | some ts => some ((s.dnlevelpat, s.dnhydroseq) :: ts)

/-- The derived trim-boundary list of `_from_fid`: the seed boundary
`(feature[P]['levelpathi'], feature[P]['hydroseq'])` followed by one
hand-off boundary per distinct level path, in first-occurrence order. -/
def trimOf (seed : Seg) (d : List Seg) : Option (List (Int × Int)) :=
  match minsFold ((pyDedup (levelpaths seed)).map fun k => (k, none)) d with
  | none => none
  | some m =>
    match minsValues m with
    | none => none
    | some tails => some ((seed.levelpathi, seed.hydroseq) :: tails)

/-- The trim-boundary test of the `keeping only mainstem flowpath` loop:
`f[P]['levelpathi'] == t[0] and f[P]['hydroseq'] <= t[1]`. -/
def matchB (f : Seg) (t : Int × Int) : Bool :=
  f.levelpathi == t.1 && f.hydroseq ≤ t.2

/-- Inner loop of the mainstem filter: `f` is appended once per matching
boundary `t` (the Python loop has no `break`). -/
def keepOne (f : Seg) : List (Int × Int) → List Seg
  | [] => []
  | t :: ts => if matchB f t then f :: keepOne f ts else keepOne f ts

/-- The `keeping only mainstem flowpath` double loop of `_from_fid`. -/
def keepMainstem (trim : List (Int × Int)) : List Seg → List Seg
  | [] => []
  | f :: fs => keepOne f trim ++ keepMainstem trim fs

/-- `_from_fid`, parameterised by the seed feature (`p.get(fid)`) and the
bulk member query result `d['features']` (`p.query(properties=...,
comp='OR', limit=10000)`); `none` embeds an unhandled `KeyError` raised
during the mins / trim derivation. -/
def fromFid (seed : Seg) (d : List Seg) : Option (List Seg) :=
  match trimOf seed d with
  | none => none
  | some trim => some (keepMainstem trim d)

/-! Concrete scenario of spec §8: seed = seg2 `{pathId 10, sequence 100,
downstreamPathChain "20"}` and six provider segments.  Hand-off
attributes that the scenario leaves unspecified (everything except
seg4's `next:(20,500)`) are instantiated with `(0, 0)`, a boundary that
matches no feature. -/

/-- seg1 of the spec §8 scenario: path 10, sequence 150. -/
def seg1 : Seg := ⟨1, 10, 150, 0, 0, []⟩

/-- seg2 of the spec §8 scenario (= the seed): path 10, sequence 100,
chain "20". -/
def seg2 : Seg := ⟨2, 10, 100, 0, 0, [some 20]⟩

/-- seg3 of the spec §8 scenario: path 10, sequence 80. -/
def seg3 : Seg := ⟨3, 10, 80, 0, 0, []⟩

/-- seg4 of the spec §8 scenario: path 10, sequence 60, hand-off
`next:(20,500)`. -/
def seg4 : Seg := ⟨4, 10, 60, 20, 500, []⟩

/-- seg5 of the spec §8 scenario: path 20, sequence 500. -/
def seg5 : Seg := ⟨5, 20, 500, 0, 0, []⟩

/-- seg6 of the spec §8 scenario: path 20, sequence 600. -/
def seg6 : Seg := ⟨6, 20, 600, 0, 0, []⟩

/-- The bulk member query result of the spec §8 scenario. -/
def dScen : List Seg := [seg1, seg2, seg3, seg4, seg5, seg6]

/-! Bounding-box seed search: `_expand_bbox`, `_compare`, `_from_bbox`. -/

/-- A four-component bounding box `[minLng, minLat, maxLng, maxLat]`,
coordinates as exact rationals. -/
structure Bbox where
  minLng : Rat
  minLat : Rat
  maxLng : Rat
  maxLat : Rat
deriving DecidableEq, Repr

/-- Python's `%` on rationals with the sign convention of the divisor:
`x % y = x - y * floor(x / y)`; for `y > 0` the result lies in `[0, y)`. -/
def pymod (x y : Rat) : Rat :=
  x - y * (Int.floor (x / y) : Rat)

/-- The coordinate clamp of `_expand_bbox.bound`:
`lambda c: (c + b) % (b * 2) - b`. -/
def wrapCoord (b c : Rat) : Rat :=
  pymod (c + b) (b * 2) - b

/-- `_expand_bbox(bbox, e)`: add `e` to the two leading components, subtract
`e` from the two trailing ones, wrap all coordinates modularly, then
re-derive a well-formed box with `min`/`max` over the longitudes
(`bbox[::2]`, modulus 180) and latitudes (`bbox[1::2]`, modulus 90). -/
def expand_bbox (bb : Bbox) (e : Rat) : Bbox :=
  let c0 := bb.minLng + e
  let c1 := bb.minLat + e
  let c2 := bb.maxLng - e
  let c3 := bb.maxLat - e
  ⟨min (wrapCoord 180 c0) (wrapCoord 180 c2),
   min (wrapCoord 90 c1) (wrapCoord 90 c3),
   max (wrapCoord 180 c0) (wrapCoord 180 c2),
   max (wrapCoord 90 c1) (wrapCoord 90 c3)⟩

/-- The expansion step as the spec's words describe it ("expand `box`
symmetrically outward by `delta` on each edge").  Modelled from the
spec, for comparison with the source's `_expand_bbox`. -/
def expandBboxSpec (bb : Bbox) (e : Rat) : Bbox :=
  ⟨bb.minLng - e, bb.minLat - e, bb.maxLng + e, bb.maxLat + e⟩

/-- Loop body of `_compare(fc, 'hydroseq', min)`: keep the current
candidate unless the next feature has a strictly smaller `hydroseq`
(`min(f[P][prop], val[P][prop]) != val[P][prop]`). -/
def compareGo (v : Seg) : List Seg → Seg
  | [] => v
  | f :: fs => compareGo (if f.hydroseq < v.hydroseq then f else v) fs

/-- `_compare(fc, 'hydroseq', min)`: start from `fc['features'][0]`
(`IndexError`, i.e. `none`, on an empty collection) and scan the whole
list. -/
def compareMinHydroseq (fs : List Seg) : Option Seg :=
  match fs with
  | [] => none
  | v :: _ => some (compareGo v fs)

/-- The `while` loop of `_from_bbox`: while the current result is empty
and attempts remain, expand the box and re-query.  `fuel` is the number
of remaining retries (`n - attempts` with `attempts` starting at 1);
the result is the final box together with the final query result. -/
def fromBboxLoop (q : Bbox → List Seg) (delta : Rat) :
    Nat → Bbox → List Seg → Bbox × List Seg
  | 0, bb, value => (bb, value)
  | fuel + 1, bb, value =>
    if value.isEmpty then
      fromBboxLoop q delta fuel (expand_bbox bb delta)
        (q (expand_bbox bb delta))
    else (bb, value)

/-- The boxes queried by the `while` loop of `_from_bbox`, in order
(excluding the initial query). -/
def fromBboxLoopBoxes (q : Bbox → List Seg) (delta : Rat) :
    Nat → Bbox → List Seg → List Bbox
  | 0, _, _ => []
  | fuel + 1, bb, value =>
    if value.isEmpty then
      expand_bbox bb delta ::
        fromBboxLoopBoxes q delta fuel (expand_bbox bb delta)
          (q (expand_bbox bb delta))
    else []

/-- `_from_bbox(bbox, n, delta)` (source defaults `n = 3`,
`delta = 0.05`), parameterised by the provider query `q`.  Returns
`none` when the final result is still empty (the caller then reports
failure), otherwise the minimum-`hydroseq` feature of the final result. -/
def from_bbox (q : Bbox → List Seg) (bb : Bbox) (n : Nat) (delta : Rat) :
    Option Seg :=
  let r := fromBboxLoop q delta (n - 1) bb (q bb)
  if r.2.isEmpty then none else compareMinHydroseq r.2

/-- All boxes queried by `_from_bbox`, in order: the starting box
followed by the boxes of the retry loop. -/
def from_bbox_queries (q : Bbox → List Seg) (bb : Bbox) (n : Nat)
    (delta : Rat) : List Bbox :=
  bb :: fromBboxLoopBoxes q delta (n - 1) bb (q bb)

/-- Well-formedness of a bounding box: longitudes within `[-180, 180]`,
latitudes within `[-90, 90]`, and min ≤ max on both axes. -/
def BboxWF (b : Bbox) : Prop :=
  (-180 ≤ b.minLng ∧ b.minLng ≤ 180) ∧ (-180 ≤ b.maxLng ∧ b.maxLng ≤ 180) ∧
  (-90 ≤ b.minLat ∧ b.minLat ≤ 90) ∧ (-90 ≤ b.maxLat ∧ b.maxLat ≤ 90) ∧
  b.minLng ≤ b.maxLng ∧ b.minLat ≤ b.maxLat

/-! OrderPlanner: `_make_order`. -/

/-- A provider sort direction: `'-'` (descending) or `'+'` (ascending). -/
inductive SortDir where
  | desc
  | asc
deriving DecidableEq, Repr

/-- The inputs `_make_order` reads: `data.get('sorted', 'downstream')`
and `data.get('sortby', 'hydroseq')`; `none` embeds an absent key. -/
structure OrderData where
  sorted : Option String
  sortby : Option String

/-- The `keys = {'downstream': '-', 'upstream': '+'}` dict of
`_make_order`; any other key raises `KeyError` (= `none`). -/
def dirKey : String → Option SortDir
  | "downstream" => some SortDir.desc
  | "upstream" => some SortDir.asc
  | _ => none

/-- `_make_order(data)`: empty / `'unsorted'` / `'unset'` give the empty
ordering, otherwise a single `{property, order}` entry with the
direction looked up in `keys` (an unrecognised direction raises
`KeyError`).  An absent `'sorted'` key defaults to `'downstream'`. -/
def make_order (d : OrderData) : Option (List (String × SortDir)) :=
  let order := d.sorted.getD "downstream"
  if order == "" || order == "unsorted" || order == "unset" then some []
  else
    match dirKey order with
    | some k => some [(d.sortby.getD "hydroseq", k)]
    | none => none

/-! Input-form validation in `execute`. -/

/-- Truthiness of the location inputs that `execute` inspects:
`data.get('id')`, `data.get('bbox')`, `data.get('latlng')`,
`data.get('lat')`, `data.get('lng')`. -/
structure ExecData where
  hasId : Bool
  hasBbox : Bool
  hasLatlng : Bool
  hasLat : Bool
  hasLng : Bool
deriving DecidableEq, Repr

/-- Whether `execute` raises `ProcessorExecuteError` (`Invalid input`):
the `id` branch is taken when `id` is truthy; otherwise the error is
raised iff `not bbox and not latlng and (not lat and not lng)`. -/
def execute_invalid (d : ExecData) : Bool :=
  !d.hasId && (!d.hasBbox && !d.hasLatlng && (!d.hasLat && !d.hasLng))

/-- Number of complete location forms supplied, as the spec's words count
them: `boundingBox`, `latitude+longitude` (both coordinates needed to
form the degenerate box), `coordinatePair`, `featureId`.  Modelled from
the spec, for comparison with the source's validation. -/
def formsCount (d : ExecData) : Nat :=
  (if d.hasBbox then 1 else 0) + (if d.hasLatlng then 1 else 0) +
    (if d.hasLat && d.hasLng then 1 else 0) + (if d.hasId then 1 else 0)

/-! PathMerger: `_group_by`. -/

/-- A GeoJSON geometry as the merger sees it: a single polyline
(`coordinates` is a list of positions) or a multi-line (`coordinates` is
a list of lists of positions). -/
inductive Geom where
  | line (pts : List (Int × Int))
  | multi (strands : List (List (Int × Int)))
deriving DecidableEq, Repr

/-- A feature as `_group_by` sees it: an open attribute map
(`properties`) and a geometry; `fid` stands for the feature's remaining
payload (identity). -/
structure GFeat where
  fid : Nat
  props : List (String × Int)
  geom : Geom
deriving DecidableEq, Repr

/-- Python dict lookup `f[P][gb]` on the open attribute map; a missing
key raises `KeyError` (= `none`). -/
def plookup (k : String) : List (String × Int) → Option Int
  | [] => none
  | e :: rest => if e.1 == k then some e.2 else plookup k rest

/-- `gbs = [f[P][gb] for gb in groupby]`: the tuple of group-key values
of one feature; any missing key raises `KeyError`. -/
def tupleOf (f : GFeat) : List String → Option (List Int)
  | [] => some []
  | k :: ks =>
    match plookup k f.props, tupleOf f ks with
    | some v, some vs => some (v :: vs)
    | _, _ => none

/-- The `same` flag of the scan: `same` starts `True` and the loop over
`zip(gbs, prevs)` clears it on any mismatch; on the first iteration every
`prevs` entry is `None` and never equals an attribute value. -/
def sameTuple (t : List Int) (prevs : List (Option Int)) : Bool :=
  (t.zip prevs).all fun p => some p.1 == p.2

/-- The group-scan loop of `_group_by`: `acc` holds the `[start, end)`
ranges found so far in reverse order (`groups[-1]` is its head); `same`
with no open group (`groups[-1]` on an empty list) raises `IndexError`
(= `none`). -/
def scanGo (ks : List String) :
    Nat → List (Option Int) → List (Nat × Nat) → List GFeat →
      Option (List (Nat × Nat))
  | _, _, acc, [] => some acc.reverse
  | i, prevs, acc, f :: fs =>
    match tupleOf f ks with
    | none => none
    | some t =>
      if sameTuple t prevs then
        match acc with
        | (s, _) :: rest => scanGo ks (i + 1) (t.map some) ((s, i + 1) :: rest) fs
        | [] => none
      else scanGo ks (i + 1) (t.map some) ((i, i + 1) :: acc) fs

/-- The full group scan of `_group_by`, starting with
`prev = {P: {gb: None for gb in groupby}}` and no groups. -/
def scanGroups (fs : List GFeat) (ks : List String) :
    Option (List (Nat × Nat)) :=
  scanGo ks 0 (ks.map fun _ => none) [] fs

/-- `f['geometry']['coordinates']` of a group member, as consumed by
`MultiLineString(geo)`: each member must be a single polyline (a nested
multi-line would make the `MultiLineString` constructor raise). -/
def lineCoords : Geom → Option (List (Int × Int))
  | Geom.line ps => some ps
  | Geom.multi _ => none

/-- `geo = [f['geometry']['coordinates'] for f in fc['features'][start:end]]`. -/
def strandsOf : List GFeat → Option (List (List (Int × Int)))
  | [] => some []
  | f :: fs =>
    match lineCoords f.geom, strandsOf fs with
    | some c, some cs => some (c :: cs)
    | _, _ => none

/-- The Python slice `fc['features'][start:end]`. -/
def slice (fs : List GFeat) (s e : Nat) : List GFeat :=
  (fs.drop s).take (e - s)

/-- Build the merged feature of one group: geometry is the member
polylines as independent strands of one `MultiLineString`
(`[p.coords[:] for p in geom.geoms]`), the base feature is
`fc['features'][end-1]`, and every property not in `groupby` is popped. -/
def mergeOne (ks : List String) (fs : List GFeat) (g : Nat × Nat) :
    Option GFeat :=
  match strandsOf (slice fs g.1 g.2), fs.get? (g.2 - 1) with
  | some cs, some last =>
    some { fid := last.fid,
           props := last.props.filter fun kv => ks.contains kv.1,
           geom := Geom.multi cs }
  | _, _ => none

/-- The merged features of all groups, in group discovery order. -/
def mergeAll (ks : List String) (fs : List GFeat) :
    List (Nat × Nat) → Option (List GFeat)
  | [] => some []
  | g :: gs =>
    match mergeOne ks fs g, mergeAll ks fs gs with
    | some m, some ms => some (m :: ms)
    | _, _ => none

/-- `_group_by(fc, groupby)` with `groupby` already split into a list of
names: the value of `fc['features']` after the call (the merged
features), `none` embedding an unhandled exception. -/
def group_by (fs : List GFeat) (ks : List String) : Option (List GFeat) :=
  match scanGroups fs ks with
  | none => none
  | some gs => mergeAll ks fs gs

/-- In-place list update `fs[n] = m` (out-of-range indices cannot occur
for scan-produced groups; on them the list is returned unchanged). -/
def setAt : List GFeat → Nat → GFeat → List GFeat
  | [], _, _ => []
  | _ :: xs, 0, m => m :: xs
  | x :: xs, n + 1, m => x :: setAt xs n m

/-- Apply the in-place mutations of the merge loop to the input member
list: for each group, the member at index `end - 1` is overwritten with
the merged feature (`feature = fc['features'][end-1]` followed by
geometry reassignment and property pops mutate that object). -/
def applyPost (fs : List GFeat) : List ((Nat × Nat) × GFeat) → List GFeat
  | [] => fs
  | (g, m) :: rest => applyPost (setAt fs (g.2 - 1) m) rest

/-- The post-call state of the member features of the collection passed
to `_group_by`: the value of each original member object after the
merge loop's in-place mutations (group ranges produced by the scan are
disjoint and increasing, so each group's geometry is read before any
mutation that could touch it). -/
def group_by_post (fs : List GFeat) (ks : List String) :
    Option (List GFeat) :=
  match scanGroups fs ks with
  | none => none
  | some gs =>
    match mergeAll ks fs gs with
    | none => none
    | some ms => some (applyPost fs (gs.zip ms))

/-! Concrete merge-scenario features (the GeoJSON rendering of seg2..seg5
as `_group_by` receives them, each with a two-point polyline). -/

/-- seg2 as a merger input feature. -/
def g2 : GFeat := ⟨2, [("levelpathi", 10), ("hydroseq", 100)], Geom.line [(2, 0), (2, 1)]⟩

/-- seg3 as a merger input feature. -/
def g3 : GFeat := ⟨3, [("levelpathi", 10), ("hydroseq", 80)], Geom.line [(3, 0), (3, 1)]⟩

/-- seg4 as a merger input feature. -/
def g4 : GFeat := ⟨4, [("levelpathi", 10), ("hydroseq", 60)], Geom.line [(4, 0), (4, 1)]⟩

/-- seg5 as a merger input feature. -/
def g5 : GFeat := ⟨5, [("levelpathi", 20), ("hydroseq", 500)], Geom.line [(5, 0), (5, 1)]⟩

/-- The merged feature for the path-10 group `[g2, g3, g4]`. -/
def mergedPath10 : GFeat :=
  ⟨4, [("levelpathi", 10)], Geom.multi [[(2, 0), (2, 1)], [(3, 0), (3, 1)], [(4, 0), (4, 1)]]⟩

/-- The merged feature for the path-20 group `[g5]`. -/
def mergedPath20 : GFeat :=
  ⟨5, [("levelpathi", 20)], Geom.multi [[(5, 0), (5, 1)]]⟩

/-- A merger input feature that lacks the attribute `nameid`. -/
def gNoName : GFeat := ⟨1, [("levelpathi", 10)], Geom.line [(0, 0), (0, 1)]⟩

/-- Two merger input features sharing the group-key value `levelpathi = 10`. -/
def gA : GFeat := ⟨11, [("levelpathi", 10), ("hydroseq", 100)], Geom.line [(0, 0), (0, 1)]⟩

/-- Second member of the shared-key pair. -/
def gB : GFeat := ⟨12, [("levelpathi", 10), ("hydroseq", 80)], Geom.line [(1, 0), (1, 1)]⟩

/-- The merged feature `_group_by` builds from `[gA, gB]` on key
`levelpathi` (it overwrites `gB` in place). -/
def mergedAB : GFeat :=
  ⟨12, [("levelpathi", 10)], Geom.multi [[(0, 0), (0, 1)], [(1, 0), (1, 1)]]⟩

/-- Seed for the missing-member scenario: path 10, chain "20". -/
def seedW : Seg := ⟨7, 10, 100, 0, 0, [some 20]⟩

/-- Bulk result for the missing-member scenario: only a path-10 feature,
no member of path 20. -/
def dW : List Seg := [⟨8, 10, 100, 0, 0, []⟩]

/-- A single-feature collection and a boundary list in which that feature
matches two distinct boundaries (same path, both thresholds above its
sequence). -/
def f9 : Seg := ⟨9, 10, 50, 0, 0, []⟩

/-- The double-matching boundary list for `f9`. -/
def trim9 : List (Int × Int) := [(10, 100), (10, 60)]

/-- A provider query that always returns one fixed feature. -/
def segConst : Seg := ⟨13, 30, 40, 0, 0, []⟩

/-- Number of boundaries of `trim` that a feature matches; the mainstem
filter appends a feature once per matching boundary. -/
def matchCount (f : Seg) : List (Int × Int) → Nat
  | [] => 0
  | t :: ts => (if matchB f t then 1 else 0) + matchCount f ts

/-! ## Theorems -/

/-- C2 (counterexample): in the §8 scenario the derived boundary list is
not the two-element set `{(10,100), (20,500)}` — the `for v in
mins.values()` loop also appends the hand-off boundary of the *last*
path in the chain (here `(0, 0)`, from path 20's minimum member), so a
third boundary is always derived. -/
theorem scenario_trim_set_counterexample :
    ¬ (∀ t ∈ (trimOf seg2 dScen).getD [],
        t = ((10 : Int), (100 : Int)) ∨ t = ((20 : Int), (500 : Int))) := by
  decide

/-- C2 (amended): in the §8 scenario the derived boundary list is
`[(10,100), (20,500), (0,0)]` — the claimed two boundaries plus the
hand-off boundary of the last path, which matches no feature; the trace
output is exactly `[seg2, seg3, seg4, seg5]` and merging it on
`levelpathi` yields exactly the two groups `[seg2, seg3, seg4]`
(path 10) followed by `[seg5]` (path 20). -/
theorem scenario_trace_and_merge :
    trimOf seg2 dScen = some [(10, 100), (20, 500), (0, 0)]
    ∧ fromFid seg2 dScen = some [seg2, seg3, seg4, seg5]
    ∧ group_by [g2, g3, g4, g5] ["levelpathi"]
        = some [mergedPath10, mergedPath20] :=
  ⟨by decide, by decide, by decide⟩

/-- C3 (counterexample): with the group key `nameid` absent from the
feature's attribute map, `_group_by` raises an unhandled `KeyError`
(embedded as `none`) instead of returning the ungrouped input
unchanged. -/
theorem merge_unknown_key_counterexample :
    group_by [gNoName] ["nameid"] = none
    ∧ plookup "nameid" gNoName.props = none :=
  ⟨rfl, rfl⟩

/-- C4 (counterexample): with an everywhere-empty provider, the boxes
actually queried by `_from_bbox` starting from `[0, 0, 1, 1]` are the
original box followed by boxes produced by `_expand_bbox` with
`e = 0.05` — each retry moves the min corner by `+0.05` and the max
corner by `-0.05` (a contraction), not an outward expansion by `0.025`
per edge as the claim states. -/
theorem bbox_retry_expansion_counterexample :
    from_bbox_queries (fun _ => []) (Bbox.mk 0 0 1 1) 3 (1 / 20)
        = [Bbox.mk 0 0 1 1, Bbox.mk (1/20) (1/20) (19/20) (19/20),
           Bbox.mk (1/10) (1/10) (9/10) (9/10)]
    ∧ Bbox.mk (1/20) (1/20) (19/20) (19/20)
        ≠ expandBboxSpec (Bbox.mk 0 0 1 1) (1/40) := by
  constructor
  · norm_num [from_bbox_queries, fromBboxLoopBoxes, expand_bbox, wrapCoord,
      pymod, min_def, max_def, Bbox.mk.injEq]
  · norm_num [expandBboxSpec, Bbox.mk.injEq]

/-- C5 (counterexample): `_group_by` does not leave the provider-derived
member features unchanged — after the call on `[gA, gB]` the member
object at the group's last index has been overwritten in place (geometry
replaced by the merged multi-line, non-group attributes popped), so the
post-call state of the input members differs from their original
state. -/
theorem merge_mutation_counterexample :
    group_by_post [gA, gB] ["levelpathi"] ≠ some [gA, gB] := by
  decide

/-- C6 (counterexample): with both a feature id and a bounding box
supplied (two location forms), `execute` does not raise `InvalidInput`
(the `id` branch takes precedence), contradicting the claim that more
than one supplied form fails. -/
theorem input_forms_counterexample :
    ¬ (execute_invalid ⟨true, true, false, false, false⟩ = true ↔
        (formsCount ⟨true, true, false, false, false⟩ = 0 ∨
          1 < formsCount ⟨true, true, false, false, false⟩)) := by
  decide

/-- C6 (amended): `execute` raises `InvalidInput` exactly when no
location input at all is truthy — no id, no bounding box, no
coordinate pair, and neither a latitude nor a longitude (a lone `lat`
or lone `lng` already suppresses the error); supplying several forms
never raises, `id` taking precedence. -/
theorem execute_invalid_iff_no_location (d : ExecData) :
    execute_invalid d = true ↔
      d.hasId = false ∧ d.hasBbox = false ∧ d.hasLatlng = false ∧
        d.hasLat = false ∧ d.hasLng = false := by
  cases d with
  | mk a b c e f => cases a <;> cases b <;> cases c <;> cases e <;> cases f <;> decide

/-- C7 (counterexample): with the direction key absent, `_make_order`
does not produce the empty ordering — `data.get('sorted', 'downstream')`
defaults the direction to `downstream`, yielding a descending ordering
on the property. -/
theorem order_absent_counterexample :
    make_order ⟨none, some "hydroseq"⟩ = some [("hydroseq", SortDir.desc)]
    ∧ some [("hydroseq", SortDir.desc)]
        ≠ (some [] : Option (List (String × SortDir))) :=
  ⟨rfl, by decide⟩

/-- C7 (amended): `_make_order` maps `downstream` to the single-element
descending ordering on the property and `upstream` to the ascending
one; an explicit `unset` (or `unsorted`, or empty) direction gives the
empty ordering; an absent direction defaults to `downstream` and hence
gives the descending ordering, not the empty one. -/
theorem make_order_cases (p : String) :
    make_order ⟨some "downstream", some p⟩ = some [(p, SortDir.desc)]
    ∧ make_order ⟨some "upstream", some p⟩ = some [(p, SortDir.asc)]
    ∧ make_order ⟨some "unset", some p⟩ = some []
    ∧ make_order ⟨some "unsorted", some p⟩ = some []
    ∧ make_order ⟨some "", some p⟩ = some []
    ∧ make_order ⟨none, some p⟩ = some [(p, SortDir.desc)] :=
  ⟨rfl, rfl, rfl, rfl, rfl, rfl⟩

/-- C9 (counterexample): the boundary filter is not idempotent — the
inner loop of `keeping only mainstem flowpath` has no `break`, so a
feature matching two boundaries of `T` is appended twice, and
re-filtering the already-filtered collection duplicates it again. -/
theorem trim_reapply_counterexample :
    keepMainstem trim9 (keepMainstem trim9 [f9])
      ≠ keepMainstem trim9 [f9] := by
  decide

/-- Helper: the inner filter loop appends `f` once per matching boundary. -/
theorem keepOne_eq_replicate (f : Seg) :
    ∀ T, keepOne f T = List.replicate (matchCount f T) f := by
  intro T
  induction T with
  | nil => rfl
  | cons t ts ih =>
    by_cases h : matchB f t
    · simp [keepOne, matchCount, h, ih, Nat.one_add, List.replicate_succ]
    · simp [keepOne, matchCount, h, ih]

/-- Helper: a feature matches some boundary iff its match count is nonzero. -/
theorem matchCount_pos_iff (f : Seg) :
    ∀ T, matchCount f T ≠ 0 ↔ ∃ t ∈ T, matchB f t = true := by
  intro T
  induction T with
  | nil => simp [matchCount]
  | cons t ts ih =>
    by_cases h : matchB f t
    · simp [matchCount, h, Nat.one_add]
    · simp [matchCount, h, ih]

/-- Helper: membership in the mainstem filter output. -/
theorem mem_keepMainstem (x : Seg) (T : List (Int × Int)) :
    ∀ fs, x ∈ keepMainstem T fs ↔ x ∈ fs ∧ ∃ t ∈ T, matchB x t = true := by
  intro fs
  induction fs with
  | nil => simp [keepMainstem]
  | cons f fs ih =>
    simp only [keepMainstem, List.mem_append, ih, keepOne_eq_replicate,
      List.mem_replicate, List.mem_cons]
    constructor
    · rintro (⟨hc, rfl⟩ | ⟨hm, ht⟩)
      · exact ⟨Or.inl rfl, (matchCount_pos_iff x T).mp hc⟩
      · exact ⟨Or.inr hm, ht⟩
    · rintro ⟨rfl | hm, ht⟩
      · exact Or.inl ⟨(matchCount_pos_iff x T).mpr ht, rfl⟩
      · exact Or.inr ⟨hm, ht⟩

/-- C1: for every valid trace invocation (the trim derivation succeeds
and the trace returns a collection), a feature of the bulk member query
result `d` appears in the output iff some derived trim boundary
`(pathId, threshold)` satisfies `feature.levelpathi = pathId ∧
feature.hydroseq ≤ threshold`; and every element of the output is (by
identity) an element of `d` — the tracer never invents geometry or
attributes. -/
theorem trace_boundary_iff_and_subset (seed : Seg) (d out : List Seg)
    (T : List (Int × Int)) (hT : trimOf seed d = some T)
    (hout : fromFid seed d = some out) :
    (∀ f ∈ d, (f ∈ out ↔ ∃ t ∈ T, matchB f t = true))
    ∧ (∀ f ∈ out, f ∈ d) := by
  have hk : out = keepMainstem T d := by
    unfold fromFid at hout
    rw [hT] at hout
    exact (Option.some.inj hout).symm
  subst hk
  constructor
  · intro f hf
    rw [mem_keepMainstem]
    exact ⟨fun h => h.2, fun h => ⟨hf, h⟩⟩
  · intro f hf
    exact ((mem_keepMainstem f T d).mp hf).1

/-- Witness for C1 at the §8 scenario. -/
theorem trace_boundary_iff_and_subset_witness :
    (∀ f ∈ dScen, (f ∈ [seg2, seg3, seg4, seg5] ↔
        ∃ t ∈ [((10 : Int), (100 : Int)), ((20 : Int), (500 : Int)),
                ((0 : Int), (0 : Int))], matchB f t = true))
    ∧ (∀ f ∈ [seg2, seg3, seg4, seg5], f ∈ dScen) :=
  trace_boundary_iff_and_subset seg2 dScen [seg2, seg3, seg4, seg5]
    [(10, 100), (20, 500), (0, 0)] (by decide) (by decide)

/-- Helper: the mainstem filter distributes over append. -/
theorem keepMainstem_append (T : List (Int × Int)) :
    ∀ a b, keepMainstem T (a ++ b) = keepMainstem T a ++ keepMainstem T b := by
  intro a b
  induction a with
  | nil => rfl
  | cons f fs ih => simp [keepMainstem, ih, List.append_assoc]

/-- C9 (amended): the boundary filter is idempotent on collections whose
features each match at most one boundary of `T` (in particular whenever
the boundaries of `T` carry pairwise distinct path ids); in general a
feature matching `k` boundaries is emitted `k` times per pass, so the
claim as stated fails. -/
theorem trim_filter_idempotent (T : List (Int × Int)) (fs : List Seg)
    (h : ∀ f ∈ fs, matchCount f T ≤ 1) :
    keepMainstem T (keepMainstem T fs) = keepMainstem T fs := by
  induction fs with
  | nil => rfl
  | cons f fs ih =>
    have hf := h f (List.mem_cons_self f fs)
    have ihr := ih fun g hg => h g (List.mem_cons_of_mem f hg)
    show keepMainstem T (keepOne f T ++ keepMainstem T fs)
      = keepOne f T ++ keepMainstem T fs
    rw [keepMainstem_append, ihr]
    congr 1
    rw [keepOne_eq_replicate]
    rcases Nat.le_one_iff_eq_zero_or_eq_one.mp hf with h0 | h1
    · rw [h0]; rfl
    · rw [h1]
      show keepMainstem T [f] = List.replicate 1 f
      simp [keepMainstem, keepOne_eq_replicate, h1]

/-- Witness for the amended C9 at the §8 scenario boundaries. -/
theorem trim_filter_idempotent_witness :
    keepMainstem [(10, 100), (20, 500), (0, 0)]
        (keepMainstem [(10, 100), (20, 500), (0, 0)] dScen)
      = keepMainstem [(10, 100), (20, 500), (0, 0)] dScen :=
  trim_filter_idempotent [(10, 100), (20, 500), (0, 0)] dScen (by decide)

/-- Helper: membership in the dedup, with an accumulator of seen keys. -/
theorem mem_pyDedupAux (l : Int) :
    ∀ (xs : List Int) (seen : List Int),
      l ∈ pyDedupAux seen xs ↔ l ∈ xs ∧ l ∉ seen := by
  intro xs
  induction xs with
  | nil => intro seen; simp [pyDedupAux]
  | cons x xs ih =>
    intro seen
    by_cases hx : x ∈ seen
    · rw [pyDedupAux, if_pos hx, ih]
      constructor
      · rintro ⟨h1, h2⟩
        exact ⟨List.mem_cons_of_mem x h1, h2⟩
      · rintro ⟨h1, h2⟩
        rcases List.mem_cons.mp h1 with rfl | h1
        · exact absurd hx h2
        · exact ⟨h1, h2⟩
    · rw [pyDedupAux, if_neg hx]
      constructor
      · intro h
        rcases List.mem_cons.mp h with rfl | h
        · exact ⟨List.mem_cons_self l xs, hx⟩
        · rcases (ih (x :: seen)).mp h with ⟨h1, h2⟩
          exact ⟨List.mem_cons_of_mem x h1,
            fun hs => h2 (List.mem_cons_of_mem x hs)⟩
      · rintro ⟨h1, h2⟩
        rcases List.mem_cons.mp h1 with rfl | h1
        · exact List.mem_cons_self l _
        · by_cases hlx : l = x
          · subst hlx; exact List.mem_cons_self l _
          · exact List.mem_cons_of_mem x ((ih (x :: seen)).mpr
              ⟨h1, fun hs => (List.mem_cons.mp hs).elim hlx h2⟩)

/-- Helper: deduplication preserves membership. -/
theorem mem_pyDedup (l : Int) (xs : List Int) : l ∈ pyDedup xs ↔ l ∈ xs := by
  rw [pyDedup, mem_pyDedupAux]
  simp

/-- Helper: every key of the freshly initialised mins dict maps to the
empty entry. -/
theorem alookup_init (l : Int) :
    ∀ L : List Int, l ∈ L →
      alookup l (L.map fun k => (k, (none : Option Seg))) = some none := by
  intro L
  induction L with
  | nil => intro h; cases h
  | cons k ks ih =>
    intro h
    by_cases hk : k = l
    · simp [alookup, hk]
    · rcases List.mem_cons.mp h with rfl | h'
      · exact absurd rfl hk
      · simpa [alookup, hk] using ih h'

/-- Helper: updating the entry of a different key leaves a lookup
unchanged. -/
theorem alookup_map_update (l : Int) (f : Seg) (hne : f.levelpathi ≠ l) :
    ∀ m : List (Int × Option Seg),
      alookup l (m.map fun e =>
          if e.1 = f.levelpathi then (e.1, updateEntry e.2 f) else e)
        = alookup l m := by
  intro m
  induction m with
  | nil => rfl
  | cons e rest ih =>
    by_cases he : e.1 = f.levelpathi
    · have hel : e.1 ≠ l := fun h => hne (he ▸ h)
      simp only [List.map_cons, if_pos he, alookup, if_neg hel, ih]
    · by_cases hel : e.1 = l
      · simp only [List.map_cons, if_neg he, alookup, if_pos hel]
      · simp only [List.map_cons, if_neg he, alookup, if_neg hel, ih]

/-- Helper: a successful mins update is the pointwise map over the dict. -/
theorem updateMins_eq (m : List (Int × Option Seg)) (f : Seg)
    (m' : List (Int × Option Seg)) (h : updateMins m f = some m') :
    m' = m.map fun e =>
      if e.1 = f.levelpathi then (e.1, updateEntry e.2 f) else e := by
  unfold updateMins at h
  by_cases hs : (alookup f.levelpathi m).isSome
  · rw [if_pos hs] at h
    exact (Option.some.inj h).symm
  · rw [if_neg hs] at h
    cases h

/-- Helper: if no scanned feature belongs to path `l`, the mins entry of
`l` stays empty through the whole fold (unless the fold itself raises). -/
theorem minsFold_pres (l : Int) :
    ∀ (d : List Seg) (m : List (Int × Option Seg)),
      (∀ f ∈ d, f.levelpathi ≠ l) → alookup l m = some none →
      minsFold m d = none ∨
        ∃ m', minsFold m d = some m' ∧ alookup l m' = some none := by
  intro d
  induction d with
  | nil => intro m _ hm; exact Or.inr ⟨m, rfl, hm⟩
  | cons f fs ih =>
    intro m hd hm
    unfold minsFold
    cases hupd : updateMins m f with
    | none => exact Or.inl rfl
    | some m' =>
      have hne := hd f (List.mem_cons_self f fs)
      have hm' : alookup l m' = some none := by
        rw [updateMins_eq m f m' hupd, alookup_map_update l f hne m]
        exact hm
      exact ih m' (fun g hg => hd g (List.mem_cons_of_mem f hg)) hm'

/-- Helper: reading the hand-off attributes of a dict that still holds an
empty entry raises `KeyError`. -/
theorem minsValues_none (l : Int) :
    ∀ m, alookup l m = some none → minsValues m = none := by
  intro m
  induction m with
  | nil => intro h; cases h
  | cons e rest ih =>
    intro h
    rcases e with ⟨k, v⟩
    by_cases he : k = l
    · unfold alookup at h
      rw [if_pos he] at h
      have hv : v = none := Option.some.inj h
      subst hv
      rfl
    · unfold alookup at h
      rw [if_neg he] at h
      have hrest := ih h
      cases v with
      | none => rfl
      | some s => simp [minsValues, hrest]

/-- C10: `_from_fid` completes only if every path id of the parsed chain
list has at least one member in the bulk query result; if some path id
`l` of the chain has no matching member (for example because the 10,000
result limit truncated a path), the minimum lookup / boundary derivation
raises an unhandled `KeyError` (embedded as `none`) instead of returning
a collection. -/
theorem trace_missing_member_keyerror (seed : Seg) (d : List Seg) (l : Int)
    (hl : l ∈ levelpaths seed) (hno : ∀ f ∈ d, f.levelpathi ≠ l) :
    fromFid seed d = none := by
  unfold fromFid trimOf
  have hinit : alookup l ((pyDedup (levelpaths seed)).map fun k => (k, none))
      = some none :=
    alookup_init l _ ((mem_pyDedup l _).mpr hl)
  rcases minsFold_pres l d _ hno hinit with h | ⟨m', hm', hl'⟩
  · rw [h]
  · rw [hm']
    have hmv := minsValues_none l m' hl'
    simp [hmv]

/-- Witness for C10: a seed with chain "20" and a bulk result containing
no path-20 member makes the trace raise. -/
theorem trace_missing_member_keyerror_witness : fromFid seedW dW = none :=
  trace_missing_member_keyerror seedW dW 20 (by decide) (by decide)

/-- Helper: Python float `%` with a positive divisor is nonnegative. -/
theorem pymod_nonneg (x y : Rat) (hy : 0 < y) : 0 ≤ pymod x y := by
  unfold pymod
  have h1 : (Int.floor (x / y) : Rat) ≤ x / y := Int.floor_le _
  have h2 : y * (Int.floor (x / y) : Rat) ≤ y * (x / y) :=
    mul_le_mul_of_nonneg_left h1 hy.le
  have h3 : y * (x / y) = x := by
    rw [mul_comm]
    exact div_mul_cancel₀ x hy.ne'
  linarith

/-- Helper: Python float `%` with a positive divisor is below it. -/
theorem pymod_lt (x y : Rat) (hy : 0 < y) : pymod x y < y := by
  unfold pymod
  have h1 : x / y < (Int.floor (x / y) : Rat) + 1 := Int.lt_floor_add_one _
  have h2 : y * (x / y) < y * ((Int.floor (x / y) : Rat) + 1) :=
    mul_lt_mul_of_pos_left h1 hy
  have h3 : y * (x / y) = x := by
    rw [mul_comm]
    exact div_mul_cancel₀ x hy.ne'
  have h4 : y * ((Int.floor (x / y) : Rat) + 1)
      = y * (Int.floor (x / y) : Rat) + y := by ring
  linarith

/-- Helper: the modular clamp lands in `[-b, b)`. -/
theorem wrapCoord_bounds (b c : Rat) (hb : 0 < b) :
    -b ≤ wrapCoord b c ∧ wrapCoord b c < b := by
  unfold wrapCoord
  have h2b : 0 < b * 2 := by linarith
  have h1 := pymod_nonneg (c + b) (b * 2) h2b
  have h2 := pymod_lt (c + b) (b * 2) h2b
  constructor <;> linarith

/-- Helper: one application of `_expand_bbox` always yields a well-formed
in-range box. -/
theorem expand_bbox_wf (bb : Bbox) (e : Rat) : BboxWF (expand_bbox bb e) := by
  have h180 : (0 : Rat) < 180 := by norm_num
  have h90 : (0 : Rat) < 90 := by norm_num
  have w0 := wrapCoord_bounds 180 (bb.minLng + e) h180
  have w2 := wrapCoord_bounds 180 (bb.maxLng - e) h180
  have w1 := wrapCoord_bounds 90 (bb.minLat + e) h90
  have w3 := wrapCoord_bounds 90 (bb.maxLat - e) h90
  unfold expand_bbox BboxWF
  dsimp only
  refine ⟨⟨le_min w0.1 w2.1, (min_le_left _ _).trans w0.2.le⟩,
    ⟨w0.1.trans (le_max_left _ _), max_le w0.2.le w2.2.le⟩,
    ⟨le_min w1.1 w3.1, (min_le_left _ _).trans w1.2.le⟩,
    ⟨w1.1.trans (le_max_left _ _), max_le w1.2.le w3.2.le⟩,
    min_le_max, min_le_max⟩

/-- C8: after any positive number of applications of the expansion step
(with any step size), the resulting box's longitude components lie in
`[-180, 180]`, its latitude components lie in `[-90, 90]`, and the box
is well-formed (min longitude ≤ max longitude, min latitude ≤ max
latitude). -/
theorem bbox_expand_wellformed (bb : Bbox) (e : Rat) (n : Nat) (h : 1 ≤ n) :
    BboxWF ((fun b => expand_bbox b e)^[n] bb) := by
  obtain ⟨m, rfl⟩ : ∃ m, n = m + 1 := ⟨n - 1, by omega⟩
  rw [Function.iterate_succ_apply']
  exact expand_bbox_wf _ e

/-- Witness for C8 at one expansion of the origin box. -/
theorem bbox_expand_wellformed_witness :
    BboxWF ((fun b => expand_bbox b (1 / 40))^[1] (Bbox.mk 0 0 0 0)) :=
  bbox_expand_wellformed (Bbox.mk 0 0 0 0) (1 / 40) 1 (by decide)

/-- Helper: a group-key missing from a feature's attributes makes the
whole key tuple raise. -/
theorem tupleOf_none (f : GFeat) (k : String) :
    ∀ ks, k ∈ ks → plookup k f.props = none → tupleOf f ks = none := by
  intro ks
  induction ks with
  | nil => intro h _; cases h
  | cons k' ks ih =>
    intro hk hnone
    rcases List.mem_cons.mp hk with rfl | hk'
    · unfold tupleOf
      rw [hnone]
    · unfold tupleOf
      rw [ih hk' hnone]
      cases plookup k' f.props <;> rfl

/-- Helper: the scan raises as soon as some member's key tuple raises. -/
theorem scanGo_none (ks : List String) (f : GFeat)
    (hf : tupleOf f ks = none) :
    ∀ (fs : List GFeat) (i : Nat) (prevs : List (Option Int))
      (acc : List (Nat × Nat)), f ∈ fs → scanGo ks i prevs acc fs = none := by
  intro fs
  induction fs with
  | nil => intro i prevs acc h; cases h
  | cons g fs ih =>
    intro i prevs acc hm
    unfold scanGo
    cases hg : tupleOf g ks with
    | none => rfl
    | some t =>
      have hf' : f ∈ fs := by
        rcases List.mem_cons.mp hm with rfl | h
        · rw [hf] at hg; cases hg
        · exact h
      by_cases hs : sameTuple t prevs
      · simp only [hs, if_true]
        cases acc with
        | nil => rfl
        | cons a rest =>
          rcases a with ⟨s, e⟩
          exact ih (i + 1) _ _ hf'
      · simp only [hs, if_false]
        exact ih (i + 1) _ _ hf'

/-- C3 (amended): when some name in `groupKeys` is not an attribute of
some input feature, `_group_by` raises an unhandled `KeyError` during
the scan (embedded as `none`); it neither skips grouping nor returns
the ungrouped input. -/
theorem merge_unknown_key_raises (fs : List GFeat) (ks : List String)
    (k : String) (f : GFeat) (hk : k ∈ ks) (hf : f ∈ fs)
    (hnone : plookup k f.props = none) :
    group_by fs ks = none := by
  unfold group_by scanGroups
  rw [scanGo_none ks f (tupleOf_none f k ks hk hnone) fs 0 _ [] hf]

/-- Witness for the amended C3. -/
theorem merge_unknown_key_raises_witness :
    group_by [gNoName] ["nameid"] = none :=
  merge_unknown_key_raises [gNoName] ["nameid"] "nameid" gNoName
    (by decide) (by decide) (by decide)

/-- Helper: in-place assignment of one index leaves other positions
unchanged. -/
theorem setAt_get_ne (m : GFeat) :
    ∀ (fs : List GFeat) (i n : Nat), i ≠ n →
      (setAt fs n m).get? i = fs.get? i := by
  intro fs
  induction fs with
  | nil => intro i n _; rfl
  | cons x xs ih =>
    intro i n hne
    cases n with
    | zero =>
      cases i with
      | zero => exact absurd rfl hne
      | succ j => rfl
    | succ n' =>
      cases i with
      | zero => rfl
      | succ j =>
        show (setAt xs n' m).get? j = xs.get? j
        exact ih j n' fun h => hne (by rw [h])

/-- Helper: the merge loop's in-place updates only touch the `end - 1`
index of each group. -/
theorem applyPost_get_ne (i : Nat) :
    ∀ (l : List ((Nat × Nat) × GFeat)) (fs : List GFeat),
      (∀ p ∈ l, i ≠ p.1.2 - 1) → (applyPost fs l).get? i = fs.get? i := by
  intro l
  induction l with
  | nil => intro fs _; rfl
  | cons p rest ih =>
    intro fs hp
    rcases p with ⟨g, m⟩
    unfold applyPost
    rw [ih _ fun p' hp' => hp p' (List.mem_cons_of_mem _ hp')]
    exact setAt_get_ne m fs i (g.2 - 1) (hp ⟨g, m⟩ (List.mem_cons_self _ _))

/-- C5 (amended): `_group_by` mutates the provider-derived collection in
place — each group's last member object is overwritten with the merged
feature and `fc['features']` is reassigned on the same collection
object — while every member at an index that is not the last index
`end - 1` of some group keeps its original value. -/
theorem merge_frame_untouched_members (fs : List GFeat) (ks : List String)
    (gs : List (Nat × Nat)) (post : List GFeat) (i : Nat)
    (hgs : scanGroups fs ks = some gs)
    (hpost : group_by_post fs ks = some post)
    (hi : ∀ g ∈ gs, i ≠ g.2 - 1) :
    post.get? i = fs.get? i := by
  unfold group_by_post at hpost
  rw [hgs] at hpost
  dsimp only at hpost
  cases hms : mergeAll ks fs gs with
  | none => rw [hms] at hpost; cases hpost
  | some ms =>
    rw [hms] at hpost
    have hp : post = applyPost fs (gs.zip ms) := by
      simp at hpost
      exact hpost.symm
    subst hp
    apply applyPost_get_ne
    intro p hp'
    rcases p with ⟨g, m⟩
    exact hi g (List.of_mem_zip hp').1

/-- Witness for the amended C5: the non-last member `gA` survives the
merge of `[gA, gB]` unchanged. -/
theorem merge_frame_untouched_members_witness :
    ([gA, mergedAB] : List GFeat).get? 0 = ([gA, gB] : List GFeat).get? 0 :=
  merge_frame_untouched_members [gA, gB] ["levelpathi"] [(0, 2)]
    [gA, mergedAB] 0 (by decide) (by decide) (by decide)

/-- Helper: the retry loop issues at most `fuel` further queries. -/
theorem loopBoxes_length (q : Bbox → List Seg) (delta : Rat) :
    ∀ (fuel : Nat) (bb : Bbox) (v : List Seg),
      (fromBboxLoopBoxes q delta fuel bb v).length ≤ fuel := by
  intro fuel
  induction fuel with
  | zero => intro bb v; simp [fromBboxLoopBoxes]
  | succ n ih =>
    intro bb v
    unfold fromBboxLoopBoxes
    by_cases hv : v.isEmpty
    · simp only [hv, if_true, List.length_cons]
      exact Nat.succ_le_succ (ih _ _)
    · simp [hv]

/-- Helper: the loop ends empty iff every issued query came back empty. -/
theorem loop_empty_iff (q : Bbox → List Seg) (delta : Rat) :
    ∀ (fuel : Nat) (bb : Bbox) (v : List Seg),
      (fromBboxLoop q delta fuel bb v).2 = [] ↔
        (v = [] ∧ ∀ b ∈ fromBboxLoopBoxes q delta fuel bb v, q b = []) := by
  intro fuel
  induction fuel with
  | zero => intro bb v; simp [fromBboxLoop, fromBboxLoopBoxes]
  | succ n ih =>
    intro bb v
    unfold fromBboxLoop fromBboxLoopBoxes
    cases v with
    | nil =>
      simp only [List.isEmpty_nil, if_true, ih]
      simp [List.forall_mem_cons, and_assoc]
    | cons x xs =>
      simp

/-- Helper: the loop's final box is one of the queried boxes and its
final value is that box's query result. -/
theorem loop_result_mem (q : Bbox → List Seg) (delta : Rat) :
    ∀ (fuel : Nat) (bb : Bbox) (v : List Seg), v = q bb →
      (fromBboxLoop q delta fuel bb v).1
          ∈ bb :: fromBboxLoopBoxes q delta fuel bb v
        ∧ (fromBboxLoop q delta fuel bb v).2
            = q (fromBboxLoop q delta fuel bb v).1 := by
  intro fuel
  induction fuel with
  | zero =>
    intro bb v hv
    exact ⟨List.mem_cons_self _ _, hv⟩
  | succ n ih =>
    intro bb v hv
    unfold fromBboxLoop fromBboxLoopBoxes
    by_cases he : v.isEmpty
    · simp only [he, if_true]
      rcases ih (expand_bbox bb delta) (q (expand_bbox bb delta)) rfl with ⟨h1, h2⟩
      exact ⟨List.mem_cons_of_mem bb h1, h2⟩
    · simp only [he, if_false]
      exact ⟨List.mem_cons_self _ _, hv⟩

/-- Helper: the `_compare` scan returns a member of the scanned list (or
the seed candidate) whose `hydroseq` is minimal. -/
theorem compareGo_spec :
    ∀ (fs : List Seg) (v : Seg),
      (compareGo v fs = v ∨ compareGo v fs ∈ fs)
      ∧ (compareGo v fs).hydroseq ≤ v.hydroseq
      ∧ ∀ f ∈ fs, (compareGo v fs).hydroseq ≤ f.hydroseq := by
  intro fs
  induction fs with
  | nil => intro v; exact ⟨Or.inl rfl, le_refl _, by simp⟩
  | cons f fs ih =>
    intro v
    by_cases hlt : f.hydroseq < v.hydroseq
    · have heq : compareGo v (f :: fs) = compareGo f fs := by
        simp [compareGo, hlt]
      rcases ih f with ⟨h1, h2, h3⟩
      refine ⟨?_, ?_, ?_⟩
      · rw [heq]
        rcases h1 with h | h
        · exact Or.inr (by rw [h]; exact List.mem_cons_self f fs)
        · exact Or.inr (List.mem_cons_of_mem f h)
      · rw [heq]; exact h2.trans hlt.le
      · intro g hg
        rw [heq]
        rcases List.mem_cons.mp hg with rfl | hg'
        · exact h2
        · exact h3 g hg'
    · have heq : compareGo v (f :: fs) = compareGo v fs := by
        simp [compareGo, hlt]
      rcases ih v with ⟨h1, h2, h3⟩
      refine ⟨?_, ?_, ?_⟩
      · rw [heq]
        rcases h1 with h | h
        · exact Or.inl h
        · exact Or.inr (List.mem_cons_of_mem f h)
      · rw [heq]; exact h2
      · intro g hg
        rw [heq]
        rcases List.mem_cons.mp hg with rfl | hg'
        · exact h2.trans (not_lt.mp hlt)
        · exact h3 g hg'

/-- Helper: successive queried boxes are related by `_expand_bbox`. -/
theorem chain_loopBoxes (q : Bbox → List Seg) (delta : Rat) :
    ∀ (fuel : Nat) (bb : Bbox) (v : List Seg),
      List.Chain' (fun a b => b = expand_bbox a delta)
        (bb :: fromBboxLoopBoxes q delta fuel bb v) := by
  intro fuel
  induction fuel with
  | zero => intro bb v; simp [fromBboxLoopBoxes]
  | succ n ih =>
    intro bb v
    unfold fromBboxLoopBoxes
    by_cases he : v.isEmpty
    · simp only [he, if_true]
      exact List.chain'_cons.mpr ⟨rfl, ih _ _⟩
    · simp [he]

/-- C4 (amended): with the source defaults (`n = 3`, `delta = 0.05`) and
any provider, `_from_bbox` issues at most 3 provider queries; it fails
(returns `none`, reported as failure by `execute`) iff every issued
query returned no features; each retried box is obtained from the
previous one by `_expand_bbox` with `e = 0.05` (which moves the min
corner inward by `+0.05` and the max corner inward by `-0.05` before
the wrapped min/max re-sort — an outward expansion only for degenerate
boxes); and on success it returns a feature of minimum `hydroseq` among
the first non-empty query result. -/
theorem from_bbox_behavior (q : Bbox → List Seg) (bb : Bbox) :
    (from_bbox_queries q bb 3 (1 / 20)).length ≤ 3
    ∧ (from_bbox q bb 3 (1 / 20) = none ↔
        ∀ b ∈ from_bbox_queries q bb 3 (1 / 20), q b = [])
    ∧ List.Chain' (fun a b => b = expand_bbox a (1 / 20))
        (from_bbox_queries q bb 3 (1 / 20))
    ∧ ∀ s, from_bbox q bb 3 (1 / 20) = some s →
        ∃ b ∈ from_bbox_queries q bb 3 (1 / 20),
          q b ≠ [] ∧ s ∈ q b ∧ ∀ f ∈ q b, s.hydroseq ≤ f.hydroseq := by
  refine ⟨?_, ?_, ?_, ?_⟩
  · show (bb :: fromBboxLoopBoxes q (1 / 20) (3 - 1) bb (q bb)).length ≤ 3
    have := loopBoxes_length q (1 / 20) (3 - 1) bb (q bb)
    simp only [List.length_cons]
    omega
  · unfold from_bbox from_bbox_queries
    cases hr : (fromBboxLoop q (1 / 20) (3 - 1) bb (q bb)).2 with
    | nil =>
      simp only [hr, List.isEmpty_nil, if_true]
      have h := (loop_empty_iff q (1 / 20) (3 - 1) bb (q bb)).mp hr
      simp only [true_iff]
      intro b hb
      rcases List.mem_cons.mp hb with rfl | hb'
      · exact h.1
      · exact h.2 b hb'
    | cons x xs =>
      simp only [hr, List.isEmpty_cons, if_false]
      constructor
      · intro h
        cases h
      · intro hall
        have hemp : (fromBboxLoop q (1 / 20) (3 - 1) bb (q bb)).2 = [] :=
          (loop_empty_iff q (1 / 20) (3 - 1) bb (q bb)).mpr
            ⟨hall bb (List.mem_cons_self _ _),
             fun b hb => hall b (List.mem_cons_of_mem _ hb)⟩
        rw [hr] at hemp
        cases hemp
  · exact chain_loopBoxes q (1 / 20) (3 - 1) bb (q bb)
  · intro s hs
    unfold from_bbox at hs
    dsimp only at hs
    rcases loop_result_mem q (1 / 20) (3 - 1) bb (q bb) rfl with ⟨hmem, hval⟩
    cases hr : (fromBboxLoop q (1 / 20) (3 - 1) bb (q bb)).2 with
    | nil =>
      rw [hr] at hs
      simp at hs
    | cons x xs =>
      rw [hr] at hs
      simp only [List.isEmpty_cons, if_false] at hs
      have hsval : s = compareGo x (x :: xs) := by
        unfold compareMinHydroseq at hs
        exact (Option.some.inj hs).symm
      refine ⟨(fromBboxLoop q (1 / 20) (3 - 1) bb (q bb)).1, hmem, ?_, ?_, ?_⟩
      · rw [← hval, hr]; simp
      · rw [← hval, hr, hsval]
        rcases (compareGo_spec (x :: xs) x).1 with h | h
        · rw [h]; exact List.mem_cons_self _ _
        · exact h
      · intro f hf
        rw [← hval, hr] at hf
        rw [hsval]
        exact (compareGo_spec (x :: xs) x).2.2 f hf

/-- Witness for the amended C4, with a provider that always returns one
feature. -/
theorem from_bbox_behavior_witness :
    ∃ b ∈ from_bbox_queries (fun _ => [segConst]) (Bbox.mk 0 0 1 1) 3 (1 / 20),
      (fun _ => [segConst]) b ≠ [] ∧ segConst ∈ (fun (_ : Bbox) => [segConst]) b
      ∧ ∀ f ∈ (fun (_ : Bbox) => [segConst]) b, segConst.hydroseq ≤ f.hydroseq :=
  (from_bbox_behavior (fun _ => [segConst]) (Bbox.mk 0 0 1 1)).2.2.2 segConst rfl

end RiverRunner
